import Mathlib

/-
Verification of the incremental ingestion core of kraken-db-builder
(src/kdb.py) against its natural-language specification.

The Python source is shallowly embedded: file contents, sidecar files, the
durable ledger file and the in-memory digest set become explicit data; the
external `kraken2-build --add-to-library` call becomes an oracle recording
its exit status; exceptions become `Except`.
-/

/-- Byte content of a file on disk. -/
abbrev Content := List Nat

/-- Python exceptions that can escape the ingestion loop: an IOError raised
by `open`/`read` in `hash_file`, and an OSError raised by
`open(f, "w")` when the sidecar file cannot be written. -/
inductive PyErr where
  | unreadable
  | sidecarWriteFailed
  deriving DecidableEq

/-- The environment of one ingestion pass: the readable byte content of each
path (`none` models a missing or unreadable file, where `open` raises), whether
the sidecar `{file}.md5` can be opened for writing, the exit status of the
external `kraken2-build --db .. --add-to-library file` process, and the
`hashlib.md5(..).hexdigest()` function over full file contents. -/
structure Env where
  content : String → Option Content
  sidecarWritable : String → Bool
  commitOk : String → Bool
  md5hex : Content → String

/-- The mutable state touched by `add_to_library` (src/kdb.py lines 195-236):
the sidecar files on disk (path of the source file paired with the digest
stored in its `.md5` sidecar), the lines of the durable ledger file
`<db_name>/library/added.md5` in file order, the in-memory global set
`hashes` (modelled as a duplicate-free list, used only through membership),
and a log of the external `kraken2-build --add-to-library` invocations made,
each with the file, the digest in hand, and the process's success. -/
structure LibState where
  sidecar : List (String × String)
  ledger : List String
  hashes : List String
  commits : List (String × String × Bool)
  deriving DecidableEq

/-- Lookup of a sidecar record: models `os.path.exists(f"{file}.md5")`
followed by reading the stored digest (src/kdb.py lines 216, 220-222). -/
def scLookup (file : String) : List (String × String) → Option String
  | [] => none
  | (g, d) :: rest => if g = file then some d else scLookup file rest

/-- `hash_file` (src/kdb.py lines 32-41): reads the file in 8192-byte chunks
and feeds each chunk to `hashlib.md5`, returning the hex digest of the full
contents; the chunking does not change the digest, so it is modelled as
hashing the whole content. `open` raises an IOError if the file is
unreadable. -/
def hash_file (env : Env) (filename : String) : Except PyErr String :=
  match env.content filename with
  | none => .error .unreadable
  | some data => .ok (env.md5hex data)

/-- Digest acquisition for one candidate file (src/kdb.py lines 216-222):
if no sidecar exists, `hash_file` is called (it may raise) and the digest is
written to a fresh sidecar `{file}.md5` (the `open(.., "w")` may raise);
otherwise the sidecar's stored digest is read back. -/
def getDigest (env : Env) (st : LibState) (file : String) :
    Except PyErr (String × LibState) :=
  match scLookup file st.sidecar with
  | some d => .ok (d, st)
  | none =>
    match hash_file env file with
    | .error e => .error e
    | .ok d =>
      if env.sidecarWritable file then
        .ok (d, { st with sidecar := (file, d) :: st.sidecar })
      else
        .error .sidecarWriteFailed

/-- One iteration of the loop at src/kdb.py lines 215-234: obtain the digest
(sidecar cache or fresh hash), skip the file if the digest is already in
`hashes`; otherwise run `kraken2-build --add-to-library` through
`run_cmd(cmd, no_output=True)` — which catches `CalledProcessError` and
ignores it (lines 107-113), so the exit status has no effect on control
flow — then append the digest to the ledger file and add it to the
in-memory set regardless of that exit status. -/
def processFile (env : Env) (st : LibState) (file : String) :
    Except PyErr LibState :=
  match getDigest env st file with
  | .error e => .error e
  | .ok (md5sum, st1) =>
    if md5sum ∈ st1.hashes then
      .ok st1
    else
      .ok { st1 with
        commits := st1.commits ++ [(file, md5sum, env.commitOk file)],
        ledger := st1.ledger ++ [md5sum],
        hashes := st1.hashes ++ [md5sum] }

/-- The `for file in tqdm(files)` loop of `add_to_library`: candidate files
processed in order; an uncaught exception aborts the whole loop. -/
def processFiles (env : Env) : LibState → List String → Except PyErr LibState
  | st, [] => .ok st
  | st, f :: fs =>
    match processFile env st f with
    | .error e => .error e
    | .ok st1 => processFiles env st1 fs

/-- Loading the ledger file (src/kdb.py lines 207-209):
`hashes = {line.strip() for line in in_file}` — the file's digest lines
(each written as `md5sum + "\n"`, stored here already stripped) collected
into a set, modelled as a duplicate-free list. -/
def loadHashes (ledgerLines : List String) : List String :=
  ledgerLines.dedup

/-- `add_to_library` (src/kdb.py lines 195-236): load the ledger file into
the in-memory set, then process every candidate file in order. A missing
ledger file behaves as the empty line list. -/
def add_to_library (env : Env) (ledgerLines : List String)
    (sidecar0 : List (String × String)) (files : List String) :
    Except PyErr LibState :=
  processFiles env
    { sidecar := sidecar0, ledger := ledgerLines,
      hashes := loadHashes ledgerLines, commits := [] } files

/-- `save_md5_file` (src/kdb.py lines 187-193): opens the ledger file in
write mode (`open(md5_file, "w")`), truncating it, and writes every digest
of the in-memory set, one per line. The previous file content (the second
argument) is discarded, not appended to. Invoked from the
`KeyboardInterrupt` handler at lines 289-295. -/
def save_md5_file (hashes : List String) (_oldLedgerLines : List String) :
    List String :=
  hashes

/-- Python `str.strip()`: remove whitespace from both ends (modelled with
`Char.isWhitespace`, which covers the space, tab, newline and carriage
return characters that occur in command output). -/
def pyStrip (s : List Char) : List Char :=
  ((s.dropWhile Char.isWhitespace).reverse.dropWhile Char.isWhitespace).reverse

/-- Python `str.split(sep)` for a one-character separator: never collapses
adjacent separators and yields `[""]` on the empty string. -/
def pySplit (sep : Char) : List Char → List (List Char)
  | [] => [[]]
  | c :: rest =>
    match pySplit sep rest with
    | [] => [[c]]
    | g :: gs => if c = sep then [] :: g :: gs else (c :: g) :: gs

/-- `run_cmd(cmd, return_output=True)` (src/kdb.py lines 104-105):
`subprocess.check_output(..).decode("utf-8").strip().split("\n")`.
`check_output` raises `CalledProcessError` on a non-zero exit status, and
that path of `run_cmd` has no try/except, so the error propagates
(`.error ()`); on success the stdout text is stripped and split on
newlines. -/
def run_cmd_output (result : Except Unit String) : Except Unit (List String) :=
  match result with
  | .error e => .error e
  | .ok out => .ok ((pySplit (Char.ofNat 10) (pyStrip out.data)).map List.asString)

/-- `DB_TYPE_CONFIG.get(db_type, [db_type])` (src/kdb.py lines 25-27, 176). -/
def DB_TYPE_CONFIG (db_type : String) : List String :=
  if db_type = "standard" then
    ["archaea", "bacteria", "viral", "plasmid", "human", "UniVec_Core"]
  else
    [db_type]

/-- The per-organism-group branch of `get_files` (src/kdb.py lines 176-182):
for each group in order, run `find {cache_dir}/refseq/{organism} -name
'*.fna'` through `run_cmd(.., return_output=True)` and concatenate the
results. An uncaught `CalledProcessError` aborts the enumeration. -/
def get_files_groups (find : String → Except Unit String) (cache_dir : String)
    (acc : List String) : List String → Except Unit (List String)
  | [] => .ok acc
  | organism :: rest =>
    match run_cmd_output (find (cache_dir ++ "/refseq/" ++ organism)) with
    | .error e => .error e
    | .ok org_files => get_files_groups find cache_dir (acc ++ org_files) rest

/-- `get_files` (src/kdb.py lines 169-184): with an explicit genomes
directory, one `find {genomes_dir} -type f -name '*.fna'`; otherwise the
organism groups of `DB_TYPE_CONFIG.get(db_type, [db_type])` in order.
The `find` oracle maps the searched root to the command's outcome
(`.error ()` models a non-zero exit, e.g. a missing directory). -/
def get_files (find : String → Except Unit String) (genomes_dir : Option String)
    (cache_dir : String) (db_type : String) : Except Unit (List String) :=
  match genomes_dir with
  | some dir => run_cmd_output (find dir)
  | none => get_files_groups find cache_dir [] (DB_TYPE_CONFIG db_type)

/-- Invariant used for content-addressing: for two candidate paths `f1`, `f2`
whose byte content hashes to `d`, their sidecar records (if any) hold `d`,
every external commit logged for them carried `d`, every logged digest is in
the in-memory set, and no digest was committed twice. -/
def commitsSpec (d f1 f2 : String) (st : LibState) : Prop :=
  (scLookup f1 st.sidecar = none ∨ scLookup f1 st.sidecar = some d) ∧
  (scLookup f2 st.sidecar = none ∨ scLookup f2 st.sidecar = some d) ∧
  (∀ t ∈ st.commits, (t.1 = f1 ∨ t.1 = f2) → t.2.1 = d) ∧
  (∀ t ∈ st.commits, t.2.1 ∈ st.hashes) ∧
  (st.commits.map (fun t => t.2.1)).Nodup

/-- Exhaustive description of successful digest acquisition: either the
sidecar already held the digest and nothing changed, or the file was hashed
and a fresh sidecar written; the ledger, set and commit log are untouched
either way. -/
theorem getDigest_ok_cases (env : Env) (st : LibState) (f d : String)
    (st1 : LibState) (h : getDigest env st f = .ok (d, st1)) :
    st1.ledger = st.ledger ∧ st1.hashes = st.hashes ∧
    st1.commits = st.commits ∧ scLookup f st1.sidecar = some d ∧
    ((st1.sidecar = st.sidecar ∧ scLookup f st.sidecar = some d) ∨
      (scLookup f st.sidecar = none ∧
        (∃ c, env.content f = some c ∧ d = env.md5hex c) ∧
        env.sidecarWritable f = true ∧
        st1.sidecar = (f, d) :: st.sidecar)) := by
  rcases hsc : scLookup f st.sidecar with _ | d0
  · rcases hct : env.content f with _ | c
    · simp [getDigest, hash_file, hsc, hct] at h
    · rcases hw : env.sidecarWritable f with _ | _
      · simp [getDigest, hash_file, hsc, hct, hw] at h
      · simp [getDigest, hash_file, hsc, hct, hw] at h
        obtain ⟨rfl, rfl⟩ := h
        refine ⟨rfl, rfl, rfl, ?_, Or.inr ⟨rfl, ⟨c, rfl, rfl⟩, rfl, rfl⟩⟩
        simp [scLookup]
  · simp [getDigest, hsc] at h
    obtain ⟨rfl, rfl⟩ := h
    exact ⟨rfl, rfl, rfl, hsc, Or.inl ⟨rfl, rfl⟩⟩

/-- Exhaustive description of a successful `processFile` step: the digest in
hand comes either from an existing sidecar or from hashing the content and
writing a fresh sidecar, and the file is either skipped because the digest
is already in the in-memory set, or committed: the external call is logged
and the digest appended to both the ledger file and the in-memory set,
regardless of the external call's exit status. -/
theorem processFile_ok_cases (env : Env) (st : LibState) (f : String)
    (st' : LibState) (h : processFile env st f = .ok st') :
    ∃ d : String,
      scLookup f st'.sidecar = some d ∧
      ((st'.sidecar = st.sidecar ∧ scLookup f st.sidecar = some d) ∨
        (scLookup f st.sidecar = none ∧
          (∃ c, env.content f = some c ∧ d = env.md5hex c) ∧
          env.sidecarWritable f = true ∧
          st'.sidecar = (f, d) :: st.sidecar)) ∧
      ((d ∈ st.hashes ∧ st'.ledger = st.ledger ∧ st'.hashes = st.hashes ∧
          st'.commits = st.commits) ∨
        (d ∉ st.hashes ∧ st'.ledger = st.ledger ++ [d] ∧
          st'.hashes = st.hashes ++ [d] ∧
          st'.commits = st.commits ++ [(f, d, env.commitOk f)])) := by
  rcases hgd : getDigest env st f with e | ⟨d, st1⟩
  · simp [processFile, hgd] at h
  · obtain ⟨hl, hh, hc, hlook, hside⟩ := getDigest_ok_cases env st f d st1 hgd
    refine ⟨d, ?_⟩
    by_cases hmem : d ∈ st1.hashes
    · simp [processFile, hgd, hmem] at h
      subst h
      rw [hh] at hmem
      exact ⟨hlook, hside, Or.inl ⟨hmem, hl, hh, hc⟩⟩
    · simp [processFile, hgd, hmem] at h
      subst h
      rw [hh] at hmem
      refine ⟨hlook, ?_, Or.inr ⟨hmem, ?_, ?_, ?_⟩⟩ <;>
        simp [hlook, hside, hl, hh, hc]

/-- A successful step never removes ledger lines: it appends zero or one. -/
theorem processFile_ledger_extend (env : Env) (st : LibState) (f : String)
    (st' : LibState) (h : processFile env st f = .ok st') :
    ∃ t, st'.ledger = st.ledger ++ t := by
  obtain ⟨d, -, -, hrec⟩ := processFile_ok_cases env st f st' h
  rcases hrec with ⟨-, hl, -, -⟩ | ⟨-, hl, -, -⟩
  · exact ⟨[], by simp [hl]⟩
  · exact ⟨[d], hl⟩

/-- A successful step never removes digests from the in-memory set. -/
theorem processFile_hashes_extend (env : Env) (st : LibState) (f : String)
    (st' : LibState) (h : processFile env st f = .ok st') :
    ∃ t, st'.hashes = st.hashes ++ t := by
  obtain ⟨d, -, -, hrec⟩ := processFile_ok_cases env st f st' h
  rcases hrec with ⟨-, -, hh, -⟩ | ⟨-, -, hh, -⟩
  · exact ⟨[], by simp [hh]⟩
  · exact ⟨[d], hh⟩

/-- A successful step never overwrites an existing sidecar record. -/
theorem processFile_sidecar_keep (env : Env) (st : LibState) (f : String)
    (st' : LibState) (h : processFile env st f = .ok st') (g d : String)
    (hg : scLookup g st.sidecar = some d) :
    scLookup g st'.sidecar = some d := by
  obtain ⟨d0, -, hside, -⟩ := processFile_ok_cases env st f st' h
  rcases hside with ⟨hs, -⟩ | ⟨hnone, -, -, hs⟩
  · rw [hs]; exact hg
  · rw [hs]
    simp only [scLookup]
    by_cases hfg : f = g
    · subst hfg; rw [hnone] at hg; cases hg
    · simp [hfg]; exact hg

/-- The pass only appends to the ledger file: the file content at the start
of any run (or any intermediate point, taking that point's state as the
start state) is an initial segment of the file content afterwards. -/
theorem processFiles_ledger_extend (env : Env) (fs : List String) :
    ∀ st st', processFiles env st fs = .ok st' →
      ∃ t, st'.ledger = st.ledger ++ t := by
  induction fs with
  | nil =>
    intro st st' h
    simp [processFiles] at h
    subst h
    exact ⟨[], by simp⟩
  | cons f fs ih =>
    intro st st' h
    rcases hpf : processFile env st f with e | st1
    · simp [processFiles, hpf] at h
    · simp only [processFiles, hpf] at h
      obtain ⟨t1, h1⟩ := processFile_ledger_extend env st f st1 hpf
      obtain ⟨t2, h2⟩ := ih st1 st' h
      exact ⟨t1 ++ t2, by rw [h2, h1, List.append_assoc]⟩

/-- The in-memory set only grows during the pass. -/
theorem processFiles_hashes_extend (env : Env) (fs : List String) :
    ∀ st st', processFiles env st fs = .ok st' →
      ∃ t, st'.hashes = st.hashes ++ t := by
  induction fs with
  | nil =>
    intro st st' h
    simp [processFiles] at h
    subst h
    exact ⟨[], by simp⟩
  | cons f fs ih =>
    intro st st' h
    rcases hpf : processFile env st f with e | st1
    · simp [processFiles, hpf] at h
    · simp only [processFiles, hpf] at h
      obtain ⟨t1, h1⟩ := processFile_hashes_extend env st f st1 hpf
      obtain ⟨t2, h2⟩ := ih st1 st' h
      exact ⟨t1 ++ t2, by rw [h2, h1, List.append_assoc]⟩

/-- Sidecar records survive the rest of the pass. -/
theorem processFiles_sidecar_keep (env : Env) (fs : List String) :
    ∀ st st', processFiles env st fs = .ok st' → ∀ g d,
      scLookup g st.sidecar = some d → scLookup g st'.sidecar = some d := by
  induction fs with
  | nil =>
    intro st st' h g d hg
    simp [processFiles] at h
    subst h
    exact hg
  | cons f fs ih =>
    intro st st' h g d hg
    rcases hpf : processFile env st f with e | st1
    · simp [processFiles, hpf] at h
    · simp only [processFiles, hpf] at h
      exact ih st1 st' h g d (processFile_sidecar_keep env st f st1 hpf g d hg)

/-- One step keeps the in-memory set and the ledger file membership-equal:
both are extended with the same digest, or neither. -/
theorem processFile_sync (env : Env) (st : LibState) (f : String)
    (st' : LibState) (h : processFile env st f = .ok st')
    (hsync : ∀ x, x ∈ st.hashes ↔ x ∈ st.ledger) :
    ∀ x, x ∈ st'.hashes ↔ x ∈ st'.ledger := by
  obtain ⟨d, -, -, hrec⟩ := processFile_ok_cases env st f st' h
  rcases hrec with ⟨-, hl, hh, -⟩ | ⟨-, hl, hh, -⟩
  · intro x; rw [hl, hh]; exact hsync x
  · intro x; rw [hl, hh]; simp [List.mem_append, hsync x]

/-- The pass keeps the in-memory set and the ledger file membership-equal. -/
theorem processFiles_sync (env : Env) (fs : List String) :
    ∀ st st', processFiles env st fs = .ok st' →
      (∀ x, x ∈ st.hashes ↔ x ∈ st.ledger) →
      ∀ x, x ∈ st'.hashes ↔ x ∈ st'.ledger := by
  induction fs with
  | nil =>
    intro st st' h hsync
    simp [processFiles] at h
    subst h
    exact hsync
  | cons f fs ih =>
    intro st st' h hsync
    rcases hpf : processFile env st f with e | st1
    · simp [processFiles, hpf] at h
    · simp only [processFiles, hpf] at h
      exact ih st1 st' h (processFile_sync env st f st1 hpf hsync)

/-- After a file is successfully processed it has a sidecar record and its
digest is in the in-memory set. -/
theorem processFile_processed (env : Env) (st : LibState) (f : String)
    (st' : LibState) (h : processFile env st f = .ok st') :
    ∃ d, scLookup f st'.sidecar = some d ∧ d ∈ st'.hashes := by
  obtain ⟨d, hlook, -, hrec⟩ := processFile_ok_cases env st f st' h
  refine ⟨d, hlook, ?_⟩
  rcases hrec with ⟨hmem, -, hh, -⟩ | ⟨-, -, hh, -⟩
  · rw [hh]; exact hmem
  · rw [hh]; simp

/-- After a completed pass, every candidate file has a sidecar record whose
digest is in the in-memory set. -/
theorem processFiles_processed (env : Env) (fs : List String) :
    ∀ st st', processFiles env st fs = .ok st' → ∀ f ∈ fs,
      ∃ d, scLookup f st'.sidecar = some d ∧ d ∈ st'.hashes := by
  induction fs with
  | nil =>
    intro st st' _ f hf
    cases hf
  | cons g fs ih =>
    intro st st' h f hf
    rcases hpf : processFile env st g with e | st1
    · simp [processFiles, hpf] at h
    · simp only [processFiles, hpf] at h
      rcases List.mem_cons.mp hf with rfl | hf
      · obtain ⟨d, hd1, hd2⟩ := processFile_processed env st f st1 hpf
        refine ⟨d, processFiles_sidecar_keep env fs st1 st' h f d hd1, ?_⟩
        obtain ⟨t, ht⟩ := processFiles_hashes_extend env fs st1 st' h
        rw [ht]
        exact List.mem_append_left t hd2
      · exact ih st1 st' h f hf

/-- A file whose sidecar digest is already in the in-memory set is skipped:
the state is untouched (src/kdb.py lines 220-225). -/
theorem processFile_skip (env : Env) (st : LibState) (f d : String)
    (hl : scLookup f st.sidecar = some d) (hm : d ∈ st.hashes) :
    processFile env st f = .ok st := by
  simp [processFile, getDigest, hl, hm]

/-- If every candidate file already has a sidecar whose digest is in the
in-memory set, the whole pass is a no-op. -/
theorem processFiles_all_skip (env : Env) (fs : List String) :
    ∀ st, (∀ f ∈ fs, ∃ d, scLookup f st.sidecar = some d ∧ d ∈ st.hashes) →
      processFiles env st fs = .ok st := by
  induction fs with
  | nil =>
    intro st _
    rfl
  | cons g fs ih =>
    intro st hall
    obtain ⟨d, hl, hm⟩ := hall g (List.mem_cons_self g fs)
    have hskip := processFile_skip env st g d hl hm
    simp only [processFiles, hskip]
    exact ih st (fun f hf => hall f (List.mem_cons_of_mem g hf))

/-- One step preserves `commitsSpec`: any commit logged for `f1` or `f2`
carries the content digest `d`, and no digest is ever committed twice
because a commit immediately puts its digest into the in-memory set. -/
theorem commitsSpec_step (env : Env) (st : LibState) (f : String)
    (st' : LibState) (d f1 f2 : String) (c : Content)
    (hc1 : env.content f1 = some c) (hc2 : env.content f2 = some c)
    (hd : d = env.md5hex c) (h : processFile env st f = .ok st')
    (hI : commitsSpec d f1 f2 st) : commitsSpec d f1 f2 st' := by
  obtain ⟨dg, hlook, hside, hrec⟩ := processFile_ok_cases env st f st' h
  obtain ⟨i1, i2, i3, i4, i5⟩ := hI
  have hdg_of : (f = f1 ∨ f = f2) → dg = d := by
    intro hf
    rcases hside with ⟨-, hsl⟩ | ⟨hnone, ⟨c0, hc0, hdg⟩, -, -⟩
    · rcases hf with rfl | rfl
      · rcases i1 with h1 | h1
        · rw [h1] at hsl; cases hsl
        · rw [h1] at hsl; exact (Option.some.inj hsl).symm
      · rcases i2 with h1 | h1
        · rw [h1] at hsl; cases hsl
        · rw [h1] at hsl; exact (Option.some.inj hsl).symm
    · rcases hf with rfl | rfl
      · rw [hc1] at hc0
        rw [hdg, ← Option.some.inj hc0, hd]
      · rw [hc2] at hc0
        rw [hdg, ← Option.some.inj hc0, hd]
  have hsc' : ∀ g, (scLookup g st.sidecar = none ∨ scLookup g st.sidecar = some d) →
      (g = f1 ∨ g = f2) →
      (scLookup g st'.sidecar = none ∨ scLookup g st'.sidecar = some d) := by
    intro g hg hgf
    rcases hside with ⟨hs, -⟩ | ⟨hnone, -, -, hs⟩
    · rw [hs]; exact hg
    · rw [hs]
      simp only [scLookup]
      by_cases hfg : f = g
      · subst hfg
        right
        simp [hdg_of hgf]
      · simp only [if_neg hfg]
        exact hg
  refine ⟨hsc' f1 i1 (Or.inl rfl), hsc' f2 i2 (Or.inr rfl), ?_, ?_, ?_⟩
  · rcases hrec with ⟨-, -, -, hcm⟩ | ⟨-, -, -, hcm⟩
    · rw [hcm]; exact i3
    · rw [hcm]
      intro t ht htf
      rcases List.mem_append.mp ht with ht | ht
      · exact i3 t ht htf
      · have : t = (f, dg, env.commitOk f) := List.mem_singleton.mp ht
        subst this
        exact hdg_of htf
  · rcases hrec with ⟨-, -, hh, hcm⟩ | ⟨-, -, hh, hcm⟩
    · rw [hcm, hh]; exact i4
    · rw [hcm, hh]
      intro t ht
      rcases List.mem_append.mp ht with ht | ht
      · exact List.mem_append_left _ (i4 t ht)
      · have : t = (f, dg, env.commitOk f) := List.mem_singleton.mp ht
        subst this
        simp
  · rcases hrec with ⟨-, -, -, hcm⟩ | ⟨hnm, -, -, hcm⟩
    · rw [hcm]; exact i5
    · rw [hcm, List.map_append]
      refine List.Nodup.append i5 (List.nodup_singleton dg) ?_
      intro x hx hx'
      have hxd : x = dg := List.mem_singleton.mp hx'
      subst hxd
      obtain ⟨t, htl, hteq⟩ := List.mem_map.mp hx
      rw [← hteq] at hnm
      exact hnm (i4 t htl)

/-- The whole pass preserves `commitsSpec`. -/
theorem commitsSpec_pass (env : Env) (fs : List String)
    (d f1 f2 : String) (c : Content)
    (hc1 : env.content f1 = some c) (hc2 : env.content f2 = some c)
    (hd : d = env.md5hex c) :
    ∀ st st', processFiles env st fs = .ok st' →
      commitsSpec d f1 f2 st → commitsSpec d f1 f2 st' := by
  induction fs with
  | nil =>
    intro st st' h hI
    simp [processFiles] at h
    subst h
    exact hI
  | cons f fs ih =>
    intro st st' h hI
    rcases hpf : processFile env st f with e | st1
    · simp [processFiles, hpf] at h
    · simp only [processFiles, hpf] at h
      exact ih st1 st' h (commitsSpec_step env st f st1 d f1 f2 c hc1 hc2 hd hpf hI)

/-- A duplicate-free list all of whose elements are equal has at most one
element. -/
theorem nodup_all_eq_length_le_one {α : Type} (l : List α) (d : α)
    (hn : l.Nodup) (hall : ∀ x ∈ l, x = d) : l.length ≤ 1 := by
  match l with
  | [] => simp
  | [x] => simp
  | x :: y :: rest =>
    exfalso
    have hx : x = d := hall x (by simp)
    have hy : y = d := hall y (by simp)
    subst hx
    rw [List.nodup_cons] at hn
    exact hn.1 (by rw [← hy]; exact List.mem_cons_self y rest)

/-- Claim C3: when a file is committed, `add_to_library` adds the digest to
the in-memory set and appends it (one digest per line) to the durable
ledger file before moving to the next candidate, and over a pass the ledger
file only ever grows by appends — so the persisted digests are
monotonically non-decreasing and a killed process loses at most the
in-flight file, never previously persisted progress (any intermediate state
of the pass is the start state of the remaining suffix of candidates). -/
theorem commitInsertsAndAppendsImmediately (env : Env) :
    (∀ (st st' : LibState) (f d : String) (b : Bool),
      processFile env st f = .ok st' →
      st'.commits = st.commits ++ [(f, d, b)] →
      st'.hashes = st.hashes ++ [d] ∧ st'.ledger = st.ledger ++ [d]) ∧
    (∀ (st : LibState) (fs : List String) (st' : LibState),
      processFiles env st fs = .ok st' →
      ∃ t, st'.ledger = st.ledger ++ t) := by
  constructor
  · intro st st' f d b h hcm
    obtain ⟨d0, -, -, hrec⟩ := processFile_ok_cases env st f st' h
    rcases hrec with ⟨-, -, -, hc⟩ | ⟨-, hl, hh, hc⟩
    · rw [hc] at hcm
      exfalso
      have := congrArg List.length hcm
      simp at this
    · rw [hc] at hcm
      have h2 := List.append_cancel_left hcm
      simp only [List.cons.injEq, Prod.mk.injEq, and_true] at h2
      obtain ⟨-, rfl, -⟩ := h2
      exact ⟨hh, hl⟩
  · intro st fs st' h
    exact processFiles_ledger_extend env fs st st' h

/-- Witness for C3 at a concrete input: a pass state with empty ledger and
set, one committed file. -/
theorem commitInsertsAndAppendsImmediatelyWitness :
    (["D"] : List String) = [] ++ ["D"] ∧ (["D"] : List String) = [] ++ ["D"] :=
  (commitInsertsAndAppendsImmediately
      (⟨fun _ => some [0], fun _ => true, fun _ => true, fun _ => "D"⟩ : Env)).1
    ⟨[], [], [], []⟩ ⟨[("w.fna", "D")], ["D"], ["D"], [("w.fna", "D", true)]⟩
    "w.fna" "D" true rfl rfl

/-- Claim C4: rerunning `add_to_library` over an unchanged tree, with the
sidecars and ledger file left by a completed first pass, performs zero
external commit calls and leaves the ledger file unchanged: the second pass
succeeds and its final state is exactly its initial one, with an empty
commit log. -/
theorem secondPassIsNoop (env : Env) (ledgerLines : List String)
    (sidecar0 : List (String × String)) (files : List String) (st1 : LibState)
    (h1 : add_to_library env ledgerLines sidecar0 files = .ok st1) :
    add_to_library env st1.ledger st1.sidecar files =
      .ok { sidecar := st1.sidecar, ledger := st1.ledger,
            hashes := loadHashes st1.ledger, commits := [] } := by
  unfold add_to_library at h1 ⊢
  have hsync := processFiles_sync env files _ st1 h1
    (fun x => (List.mem_dedup : x ∈ ledgerLines.dedup ↔ x ∈ ledgerLines))
  apply processFiles_all_skip
  intro f hf
  obtain ⟨d, hd1, hd2⟩ := processFiles_processed env files _ st1 h1 f hf
  refine ⟨d, hd1, ?_⟩
  have hdl : d ∈ st1.ledger := (hsync d).mp hd2
  exact List.mem_dedup.mpr hdl

/-- Witness for C4 at a concrete input: one file, committed on the first
pass, skipped on the second. -/
theorem secondPassIsNoopWitness :
    add_to_library
      (⟨fun _ => some [0], fun _ => true, fun _ => true, fun _ => "D"⟩ : Env)
      ["D"] [("a.fna", "D")] ["a.fna"] =
    .ok ⟨[("a.fna", "D")], ["D"], loadHashes ["D"], []⟩ :=
  secondPassIsNoop
    (⟨fun _ => some [0], fun _ => true, fun _ => true, fun _ => "D"⟩ : Env)
    [] [] ["a.fna"] ⟨[("a.fna", "D")], ["D"], ["D"], [("a.fna", "D", true)]⟩
    (by rfl)

/-- Claim C2 (amended): during a pass the ledger file only ever grows by
appends, and when the interrupt handler runs `save_md5_file` it REWRITES
the file (write mode) with the in-memory set rather than appending; the
rewritten file holds exactly the digests of the appended file, so every
persisted digest survives the rewrite — but the file is not append-only
under interruption as the claim states, and digests whose external commit
failed are in the file as well (they are appended like successful ones). -/
theorem interruptRewritePreservesDigestSet (env : Env)
    (ledgerLines : List String) (sidecar0 : List (String × String))
    (files : List String) (st1 : LibState)
    (h1 : add_to_library env ledgerLines sidecar0 files = .ok st1) :
    (∃ t, st1.ledger = ledgerLines ++ t) ∧
    (∀ x, x ∈ save_md5_file st1.hashes st1.ledger ↔ x ∈ st1.ledger) := by
  unfold add_to_library at h1
  constructor
  · exact processFiles_ledger_extend env files _ st1 h1
  · exact processFiles_sync env files _ st1 h1
      (fun x => (List.mem_dedup : x ∈ ledgerLines.dedup ↔ x ∈ ledgerLines))

/-- Witness for C2 (amended) at a concrete input. -/
theorem interruptRewritePreservesDigestSetWitness :
    (∃ t, (["K"] : List String) = [] ++ t) ∧
    (∀ x, x ∈ save_md5_file ["K"] ["K"] ↔ x ∈ (["K"] : List String)) :=
  interruptRewritePreservesDigestSet
    (⟨fun _ => some [1], fun _ => true, fun _ => true, fun _ => "K"⟩ : Env)
    [] [] ["y.fna"] ⟨[("y.fna", "K")], ["K"], ["K"], [("y.fna", "K", true)]⟩
    (by rfl)

/-- Claim C2 counterexample: one candidate file whose external commit exits
non-zero. The pass completes, the commit log records the failure
(`false`), yet the digest "D" is a line of the durable ledger file — a
digest that never reached `Committed` appears in the ledger, so an
interruption at this point (or normal termination) leaves it persisted,
contrary to the claim. -/
theorem ledgerHoldsUncommittedDigest :
    add_to_library
        (⟨fun _ => some [0], fun _ => true, fun _ => false, fun _ => "D"⟩ : Env)
        [] [] ["x.fna"] =
      .ok ⟨[("x.fna", "D")], ["D"], ["D"], [("x.fna", "D", false)]⟩ ∧
    "D" ∈ (⟨[("x.fna", "D")], ["D"], ["D"], [("x.fna", "D", false)]⟩
        : LibState).ledger :=
  ⟨rfl, by simp⟩

/-- Claim C1 (code bug), evaluated at the failing input: a candidate file
with no sidecar whose `kraken2-build --add-to-library` call exits non-zero.
`run_cmd(cmd, no_output=True)` catches the `CalledProcessError` and ignores
it (src/kdb.py lines 107-113), and lines 230-234 then append the digest to
the ledger file and add it to the in-memory set unconditionally: the commit
log records the failure (`false`), yet the digest is ledgered, the pass
treats the file as done, and it is never retried on a later invocation —
the claim (and spec) require the digest of a failed file to stay out of the
ledger so the file is retried. -/
theorem failedCommitStillLedgered :
    processFile
        (⟨fun _ => some [0], fun _ => true, fun _ => false, fun _ => "D"⟩ : Env)
        ⟨[], [], [], []⟩ "a.fna" =
      .ok ⟨[("a.fna", "D")], ["D"], ["D"], [("a.fna", "D", false)]⟩ :=
  rfl

/-- Claim C5: two distinct candidate paths with byte-identical contents
(and no pre-existing sidecar records, per the spec's sidecar-validity
invariant) are treated as one logical item in a pass: at most one of them
triggers an external commit call — both yield the same digest, and once
that digest is in the in-memory set the other is skipped. -/
theorem identicalContentCommitsAtMostOnce (env : Env)
    (ledgerLines : List String) (sidecar0 : List (String × String))
    (files : List String) (f1 f2 : String) (c : Content) (st1 : LibState)
    (hne : f1 ≠ f2) (hm1 : f1 ∈ files) (hm2 : f2 ∈ files)
    (hc1 : env.content f1 = some c) (hc2 : env.content f2 = some c)
    (hs1 : scLookup f1 sidecar0 = none) (hs2 : scLookup f2 sidecar0 = none)
    (h : add_to_library env ledgerLines sidecar0 files = .ok st1) :
    (st1.commits.filter (fun t => t.1 == f1 || t.1 == f2)).length ≤ 1 := by
  unfold add_to_library at h
  have hspec : commitsSpec (env.md5hex c) f1 f2 st1 :=
    commitsSpec_pass env files (env.md5hex c) f1 f2 c hc1 hc2 rfl _ st1 h
      ⟨Or.inl hs1, Or.inl hs2, by simp, by simp, by simp⟩
  obtain ⟨-, -, i3, -, i5⟩ := hspec
  have hsub : (st1.commits.filter (fun t => t.1 == f1 || t.1 == f2)).Sublist
      st1.commits := List.filter_sublist _
  have hnod : ((st1.commits.filter (fun t => t.1 == f1 || t.1 == f2)).map
      (fun t => t.2.1)).Nodup :=
    List.Nodup.sublist (List.Sublist.map _ hsub) i5
  have hlen := List.length_map
    (st1.commits.filter (fun t => t.1 == f1 || t.1 == f2)) (fun t => t.2.1)
  rw [← hlen]
  apply nodup_all_eq_length_le_one _ (env.md5hex c) hnod
  intro x hx
  obtain ⟨t, htl, hteq⟩ := List.mem_map.mp hx
  have htc : t ∈ st1.commits := hsub.subset htl
  have hp : (t.1 == f1 || t.1 == f2) = true := (List.mem_filter.mp htl).2
  have hor : t.1 = f1 ∨ t.1 = f2 := by
    rcases Bool.or_eq_true_iff.mp hp with h' | h'
    · exact Or.inl (by simpa using h')
    · exact Or.inr (by simpa using h')
  rw [← hteq]
  exact i3 t htc hor

/-- Witness for C5 at a concrete input: two paths with the same bytes; the
first commits, the second is skipped. -/
theorem identicalContentCommitsAtMostOnceWitness :
    (((⟨[("q.fna", "H"), ("p.fna", "H")], ["H"], ["H"],
        [("p.fna", "H", true)]⟩ : LibState)).commits.filter
      (fun t => t.1 == "p.fna" || t.1 == "q.fna")).length ≤ 1 :=
  identicalContentCommitsAtMostOnce
    (⟨fun _ => some [7], fun _ => true, fun _ => true, fun _ => "H"⟩ : Env)
    [] [] ["p.fna", "q.fna"] "p.fna" "q.fna" [7]
    ⟨[("q.fna", "H"), ("p.fna", "H")], ["H"], ["H"], [("p.fna", "H", true)]⟩
    (by decide) (by simp) (by simp) rfl rfl rfl rfl (by rfl)

/-- Claim C6: the sidecar cache contract of src/kdb.py lines 216-222. If a
sidecar record exists, its stored digest is returned with no change of
state and without reading the source file (the result is the same for every
environment, whatever the file's content); if none exists (and the file is
readable and the sidecar writable), the hasher runs on the source content,
the digest is persisted as a new sidecar record, and that digest is
returned. -/
theorem sidecarCacheContract (st : LibState) (f d : String) (c : Content) :
    (∀ env : Env, scLookup f st.sidecar = some d →
      getDigest env st f = .ok (d, st)) ∧
    (∀ env : Env, scLookup f st.sidecar = none → env.content f = some c →
      env.sidecarWritable f = true →
      getDigest env st f =
        .ok (env.md5hex c,
          { st with sidecar := (f, env.md5hex c) :: st.sidecar })) := by
  constructor
  · intro env hl
    simp [getDigest, hl]
  · intro env hl hc hw
    simp [getDigest, hash_file, hl, hc, hw]

/-- Witness for C6 at concrete inputs: a sidecar hit returning the stored
digest, and a sidecar miss hashing and persisting. -/
theorem sidecarCacheContractWitness :
    getDigest (⟨fun _ => some [3], fun _ => true, fun _ => true,
        fun _ => "S"⟩ : Env) ⟨[("s.fna", "S")], [], [], []⟩ "s.fna" =
      .ok ("S", ⟨[("s.fna", "S")], [], [], []⟩) ∧
    getDigest (⟨fun _ => some [3], fun _ => true, fun _ => true,
        fun _ => "S"⟩ : Env) ⟨[], [], [], []⟩ "t.fna" =
      .ok ("S", ⟨[("t.fna", "S")], [], [], []⟩) :=
  ⟨(sidecarCacheContract ⟨[("s.fna", "S")], [], [], []⟩ "s.fna" "S" [3]).1
      (⟨fun _ => some [3], fun _ => true, fun _ => true, fun _ => "S"⟩ : Env)
      rfl,
    (sidecarCacheContract ⟨[], [], [], []⟩ "t.fna" "S" [3]).2
      (⟨fun _ => some [3], fun _ => true, fun _ => true, fun _ => "S"⟩ : Env)
      rfl rfl rfl⟩

/-- Claim C7 (amended): a source file that is unreadable during hashing
makes `hash_file` raise an IOError which nothing in `add_to_library`
catches, so the exception aborts the ENTIRE pass — the remaining candidates
are not processed — rather than skipping only that file. The failing file's
digest is recorded in neither the ledger nor a sidecar (the error precedes
both writes, as `getDigest` erroring before any state update shows), so the
file is retried, with the whole tree, on the next run. -/
theorem unreadableFileAbortsPass (env : Env) (st : LibState) (f : String)
    (rest : List String) (hsc : scLookup f st.sidecar = none)
    (hc : env.content f = none) :
    getDigest env st f = .error .unreadable ∧
    processFiles env st (f :: rest) = .error .unreadable := by
  have h1 : getDigest env st f = .error .unreadable := by
    simp [getDigest, hash_file, hsc, hc]
  have h2 : processFile env st f = .error .unreadable := by
    simp [processFile, h1]
  exact ⟨h1, by simp [processFiles, h2]⟩

/-- Witness for C7 (amended) at a concrete input. -/
theorem unreadableFileAbortsPassWitness :
    getDigest (⟨fun _ => none, fun _ => true, fun _ => true,
        fun _ => "G"⟩ : Env) ⟨[], [], [], []⟩ "u.fna" =
      .error .unreadable ∧
    processFiles (⟨fun _ => none, fun _ => true, fun _ => true,
        fun _ => "G"⟩ : Env) ⟨[], [], [], []⟩ ["u.fna", "v.fna"] =
      .error .unreadable :=
  unreadableFileAbortsPass
    (⟨fun _ => none, fun _ => true, fun _ => true, fun _ => "G"⟩ : Env)
    ⟨[], [], [], []⟩ "u.fna" ["v.fna"] rfl rfl

/-- Claim C7 counterexample: a pass over an unreadable file followed by a
readable one does not continue to the next candidate — `add_to_library`
aborts with the IOError and the second file is never processed, contrary to
the claim that only the unreadable file is skipped. -/
theorem unreadableFileAbortsPassCex :
    add_to_library
        (⟨fun g => if g = "bad.fna" then none else some [1],
          fun _ => true, fun _ => true, fun _ => "E"⟩ : Env)
        [] [] ["bad.fna", "good.fna"] =
      .error .unreadable :=
  rfl

/-- Claim C9 (amended): if writing the sidecar record fails (e.g. read-only
filesystem), the OSError from `open(f"{file}.md5", "w")` is uncaught: the
freshly computed digest is NOT used for the current pass — the exception
aborts the whole pass before the ledger-membership test — and no sidecar is
written, so the digest is recomputed on the next run. -/
theorem sidecarWriteFailureAbortsPass (env : Env) (st : LibState)
    (f : String) (c : Content) (rest : List String)
    (hsc : scLookup f st.sidecar = none) (hc : env.content f = some c)
    (hw : env.sidecarWritable f = false) :
    getDigest env st f = .error .sidecarWriteFailed ∧
    processFiles env st (f :: rest) = .error .sidecarWriteFailed := by
  have h1 : getDigest env st f = .error .sidecarWriteFailed := by
    simp [getDigest, hash_file, hsc, hc, hw]
  have h2 : processFile env st f = .error .sidecarWriteFailed := by
    simp [processFile, h1]
  exact ⟨h1, by simp [processFiles, h2]⟩

/-- Witness for C9 (amended) at a concrete input. -/
theorem sidecarWriteFailureAbortsPassWitness :
    getDigest (⟨fun _ => some [2], fun _ => false, fun _ => true,
        fun _ => "F"⟩ : Env) ⟨[], [], [], []⟩ "ro.fna" =
      .error .sidecarWriteFailed ∧
    processFiles (⟨fun _ => some [2], fun _ => false, fun _ => true,
        fun _ => "F"⟩ : Env) ⟨[], [], [], []⟩ ["ro.fna", "rw.fna"] =
      .error .sidecarWriteFailed :=
  sidecarWriteFailureAbortsPass
    (⟨fun _ => some [2], fun _ => false, fun _ => true, fun _ => "F"⟩ : Env)
    ⟨[], [], [], []⟩ "ro.fna" [2] ["rw.fna"] rfl rfl rfl

/-- Claim C9 counterexample: with an unwritable sidecar the pass does not
carry on with the computed digest — `add_to_library` aborts with the error,
so the failure IS fatal to the pass, contrary to the claim. -/
theorem sidecarWriteFailureFatalCex :
    add_to_library
        (⟨fun _ => some [2], fun _ => false, fun _ => true,
          fun _ => "F"⟩ : Env)
        [] [] ["ro.fna"] =
      .error .sidecarWriteFailed :=
  rfl

/-- If any organism group's find command exits non-zero, the per-group
enumeration propagates the `CalledProcessError` and aborts. -/
theorem get_files_groups_error (find : String → Except Unit String)
    (cache_dir : String) :
    ∀ (orgs : List String) (acc : List String) (org : String), org ∈ orgs →
      find (cache_dir ++ "/refseq/" ++ org) = .error () →
      get_files_groups find cache_dir acc orgs = .error () := by
  intro orgs
  induction orgs with
  | nil =>
    intro acc org h _
    cases h
  | cons g rest ih =>
    intro acc org hm hf
    rcases hro : run_cmd_output (find (cache_dir ++ "/refseq/" ++ g))
        with e | org_files
    · simp [get_files_groups, hro]
    · rcases List.mem_cons.mp hm with rfl | hm'
      · rw [hf] at hro
        simp [run_cmd_output] at hro
      · simp only [get_files_groups, hro]
        exact ih (acc ++ org_files) org hm' hf

/-- Claim C8 (amended): when a per-group directory is missing, the
`find {cache_dir}/refseq/{organism}` command exits non-zero;
`subprocess.check_output` then raises `CalledProcessError`, which the
`return_output` path of `run_cmd` (src/kdb.py lines 104-105) does NOT
catch, so the enumeration — and with it the pass — fails with an error
instead of contributing zero files for that group. -/
theorem missingGroupDirAbortsEnumeration (find : String → Except Unit String)
    (cache_dir db_type org : String) (hmem : org ∈ DB_TYPE_CONFIG db_type)
    (hfail : find (cache_dir ++ "/refseq/" ++ org) = .error ()) :
    get_files find none cache_dir db_type = .error () :=
  get_files_groups_error find cache_dir (DB_TYPE_CONFIG db_type) [] org
    hmem hfail

/-- Witness for C8 (amended) at a concrete input. -/
theorem missingGroupDirAbortsEnumerationWitness :
    get_files (fun _ => Except.error ()) none "/cache" "viral" =
      Except.error () :=
  missingGroupDirAbortsEnumeration (fun _ => Except.error ())
    "/cache" "viral" "viral" (by decide) rfl

/-- Claim C8 counterexample: with the `bacteria` group's directory missing
(its find command exits non-zero), `get_files` raises instead of returning
a candidate list with zero files for that group — the enumeration fails
with an error, contrary to the claim. -/
theorem missingGroupDirCex :
    get_files (fun _ => Except.error ()) none "/cache" "bacteria" =
      Except.error () :=
  rfl

/-- Claim C10: when the find command succeeds with empty output (a directory
with no matching sequence files), `.strip().split("\n")` turns the empty
stdout into `[""]`, so `get_files` returns a singleton list holding the
empty string — in both the explicit-directory and the per-group branch —
never the empty list. -/
theorem emptyFindOutputYieldsSingletonEmpty
    (find : String → Except Unit String) (dir cache_dir db_type : String) :
    (find dir = .ok "" →
      get_files find (some dir) cache_dir db_type = .ok [""]) ∧
    (db_type ≠ "standard" → find (cache_dir ++ "/refseq/" ++ db_type) = .ok "" →
      get_files find none cache_dir db_type = .ok [""]) ∧
    ([""] : List String) ≠ [] := by
  refine ⟨?_, ?_, by simp⟩
  · intro h
    show run_cmd_output (find dir) = .ok [""]
    rw [h]
    exact rfl
  · intro hdb h
    show get_files_groups find cache_dir [] (DB_TYPE_CONFIG db_type) = .ok [""]
    simp only [DB_TYPE_CONFIG, if_neg hdb]
    simp only [get_files_groups]
    rw [h]
    exact rfl

/-- Witness for C10 at a concrete input. -/
theorem emptyFindOutputYieldsSingletonEmptyWitness :
    get_files (fun _ => Except.ok "") (some "/genomes") "/cache" "viral" =
      .ok [""] :=
  (emptyFindOutputYieldsSingletonEmpty (fun _ => Except.ok "")
    "/genomes" "/cache" "viral").1 rfl
